import Mathlib

/-!
Verification development for the Syntx correlation engine
(`src/backend/src/telegram/syntxService.ts`).

The engine correlates outbound prompts with inbound replies: a shared
poller repeatedly fetches a batch of inbound messages, matches them to
pending jobs first by an embedded `[JOB_ID: ...]` marker and then by
timestamp proximity, confirms every proposed binding through an external
reservation store, and times out expired jobs.

All definitions below are shallow embeddings of the TypeScript source.
Strings are modelled as `List Char`; timestamps as `Int` (milliseconds);
the external reservation store (`reserveSyntaxMessageId`, which lives in
the firebase service and is not part of the provided source) is modelled
from the spec as a first-writer-wins claim table.
-/

namespace Syntx

/-- Strings of the TypeScript source, modelled as lists of characters. -/
abbrev Str := List Char

/-- Environment configuration (lines 26-31): the fallback poll threshold
(`SYNTX_FALLBACK_POLLS`, default 3) and the fallback window in ms
(`SYNTX_FALLBACK_WINDOW_MS`, default 120000). -/
structure SyntxConfig where
  fallbackPollsThreshold : Nat
  fallbackWindowMs : Int
deriving DecidableEq

/-- An inbound Telegram message, as observed by `pollOnce`.  `text` is the
result of `getMessageFullText` (body plus caption, lines 79-91), `isVideo`
the result of `isVideoMessage` (lines 93-104), and `dateMs` the millisecond
timestamp computed on lines 322-330. -/
structure Msg where
  id : Nat
  isVideo : Bool
  text : Str
  dateMs : Int
deriving DecidableEq

/-- `VideoMessageInfo` (lines 50-55): a video-bearing candidate, with the
marker extracted from its text (`jobIdMark`, `null` modelled as `none`). -/
structure VideoMessageInfo where
  msgId : Nat
  jobIdMark : Option Str
  dateMs : Int
deriving DecidableEq

/-- `MatchingMethod`: `"jobId"` (marker match) or `"timestamp"` (fallback). -/
inductive MatchingMethod where
  | byJobId
  | byTimestamp
deriving DecidableEq

/-- Settlement of a job's promise: `resolve` with a matched message (lines
460-464) or `reject` with a timeout (lines 470-477). -/
inductive Outcome where
  | matched (messageId : Nat) (method : MatchingMethod) (totalMessagesScanned : Nat)
  | timedOut
deriving DecidableEq

/-- `PendingJobInfo` (lines 39-48), minus the `resolve`/`reject` closures,
which are modelled by the `settled` log of `SyntxState`. -/
structure PendingJobInfo where
  jobId : Str
  requestMessageId : Nat
  jobCreatedAt : Int
  sentAt : Int
  deadline : Int
  pollCount : Nat
deriving DecidableEq

/-- The module-level mutable state of the service (lines 57-63):
`pendingJobs` (a `Map`, modelled as a list in insertion order),
`reservedMessageIds` (a `Set`, modelled as a list with set semantics),
the external reservation store (modelled from the spec, see `tryReserve`),
the cumulative `totalMessagesScanned` counter, and a log of settlements
(each `resolve`/`reject` call appends one entry). -/
structure SyntxState where
  pendingJobs : List PendingJobInfo
  reservedMessageIds : List Nat
  store : List (Nat × Str × MatchingMethod)
  totalMessagesScanned : Nat
  settled : List (Str × Outcome)
deriving DecidableEq

/-! ## Marker embedding and extraction (lines 69-77) -/

/-- The character class of JavaScript's `\s` (also the set removed by
`String.prototype.trim`). -/
def isJsSpace (c : Char) : Bool :=
  c ∈ ([' ', '\t', '\n', '\x0b', '\x0c', '\r', '\u00A0', '\u1680',
        '\u2000', '\u2001', '\u2002', '\u2003', '\u2004', '\u2005',
        '\u2006', '\u2007', '\u2008', '\u2009', '\u200A', '\u2028',
        '\u2029', '\u202F', '\u205F', '\u3000', '\uFEFF'] : List Char)

/-- JavaScript `String.prototype.trim`. -/
def trimChars (s : Str) : Str :=
  ((s.dropWhile isJsSpace).reverse.dropWhile isJsSpace).reverse

/-- The literal head of the marker pattern `/\[JOB_ID:\s*([^\]]+)\]/`. -/
def jobMarkerLit : Str := ['[', 'J', 'O', 'B', '_', 'I', 'D', ':']

/-- Match the literal `[JOB_ID:` at the head of `l`, returning the rest. -/
def stripMarkerLit (l : Str) : Option Str :=
  if l.take 8 = jobMarkerLit then some (l.drop 8) else none

/-- Match `\s*([^\]]+)\]` against `rest` and return the capture group.
The regex engine behaves as follows: let `pre` be the run of
non-`]` characters at the head of `rest`.  The pattern matches iff a `]`
exists (`pre` shorter than `rest`) and `pre` is non-empty.  Greedy `\s*`
takes the whitespace head of `pre` and `([^\]]+)` captures the remainder;
when `pre` is entirely whitespace, backtracking hands the last whitespace
character back to the capture group. -/
def markerCaptureAt (rest : Str) : Option Str :=
  let pre := rest.takeWhile (fun c => !(c == ']'))
  if pre.length = rest.length then none
  else if pre.length = 0 then none
  else
    let cap := pre.dropWhile isJsSpace
    if cap.isEmpty then some [pre.getLastD ']']
    else some cap

/-- Try to match the whole pattern `\[JOB_ID:\s*([^\]]+)\]` at the head of
`l`, returning the raw capture group. -/
def tryMarkerAt (l : Str) : Option Str :=
  match stripMarkerLit l with
  | some rest => markerCaptureAt rest
  | none => none

/-- Scan left to right for the first position where the marker pattern
matches (the semantics of `text.match(regex)` for an unanchored regex). -/
def findJobIdCaptureAux : Str → Option Str
  | [] => none
  | c :: cs =>
    match tryMarkerAt (c :: cs) with
    | some cap => some cap
    | none => findJobIdCaptureAux cs

/-- `extractJobIdFromText` (lines 74-77): first match of
`/\[JOB_ID:\s*([^\]]+)\]/`, capture group trimmed; `null` if no match. -/
def extractJobIdFromText (text : Str) : Option Str :=
  (findJobIdCaptureAux text).map trimChars

/-- `addJobIdToPrompt` (lines 69-72): appends `\n\n[JOB_ID: <jobId>]`. -/
def addJobIdToPrompt (prompt : Str) (jobId : Str) : Str :=
  prompt ++ ('\n' :: '\n' :: (jobMarkerLit ++ (' ' :: (jobId ++ [']']))))

/-- Whether `p` contains an occurrence of the literal `[JOB_ID:`. -/
def containsMarkerStart : Str → Bool
  | [] => false
  | c :: cs => ((c :: cs).take 8 == jobMarkerLit) || containsMarkerStart cs

/-! ## Candidate construction (lines 317-351) -/

/-- `filterVideoMessages`: build a `VideoMessageInfo` for every message and
keep the video-bearing ones. -/
def filterVideoMessages (messages : List Msg) : List VideoMessageInfo :=
  messages.filterMap fun m =>
    if m.isVideo then some ⟨m.id, extractJobIdFromText m.text, m.dateMs⟩ else none

/-- JS truthiness of `info.jobIdMark` (a `string | null`): both `null` and
the empty string are falsy.  Code lines 355 and 392 test exactly this. -/
def jobIdMarkPresent (i : VideoMessageInfo) : Bool :=
  match i.jobIdMark with
  | none => false
  | some s => !s.isEmpty

/-- The marker used as a lookup key when it is truthy (line 360). -/
def markOf (i : VideoMessageInfo) : Option Str :=
  match i.jobIdMark with
  | none => none
  | some s => if s.isEmpty then none else some s

/-! ## Reservation gate -/

/-- Message ids already claimed in the external store. -/
def storeKeys (store : List (Nat × Str × MatchingMethod)) : List Nat :=
  store.map (fun e => e.1)

/-- Modelled from the spec: `reserveSyntaxMessageId` (the ReservationStore's
`tryReserve`, §6) is implemented in the firebase service, which is not under
`src/`.  The spec describes it as an atomic, globally consistent,
first-writer-wins claim binding one message id to one job id: the claim
succeeds iff no reservation for the message id exists yet, in which case the
binding is recorded permanently. -/
def tryReserve (store : List (Nat × Str × MatchingMethod)) (messageId : Nat)
    (jobId : Str) (method : MatchingMethod) :
    Bool × List (Nat × Str × MatchingMethod) :=
  if messageId ∈ storeKeys store then (false, store)
  else (true, (messageId, jobId, method) :: store)

/-- `reservedMessageIds.add` (a JS `Set`): insert without duplication. -/
def addReserved (r : List Nat) (id : Nat) : List Nat :=
  if id ∈ r then r else id :: r

/-- `attemptAssignment` (lines 431-465): skip if the message id is cached as
reserved; otherwise claim it in the external store.  On a lost race, cache
the id and leave the job untouched; on success, cache the id, remove the job
from the registry and resolve it with the matched message, method, and the
current `totalMessagesScanned`. -/
def attemptAssignment (s : SyntxState) (job : PendingJobInfo)
    (info : VideoMessageInfo) (method : MatchingMethod) : SyntxState :=
  if info.msgId ∈ s.reservedMessageIds then s
  else
    match tryReserve s.store info.msgId job.jobId method with
    | (false, store1) =>
      { s with reservedMessageIds := addReserved s.reservedMessageIds info.msgId,
               store := store1 }
    | (true, store1) =>
      { s with reservedMessageIds := addReserved s.reservedMessageIds info.msgId,
               store := store1,
               pendingJobs := s.pendingJobs.filter (fun j => !(j.jobId == job.jobId)),
               settled := s.settled ++
                 [(job.jobId, Outcome.matched info.msgId method s.totalMessagesScanned)] }

/-! ## Phase A — marker match (lines 353-371) -/

/-- `matchMessagesByJobId`: for each candidate with a truthy marker, look up
the pending job keyed by the marker and attempt the assignment. -/
def matchLoop : SyntxState → List VideoMessageInfo → SyntxState
  | s, [] => s
  | s, info :: rest =>
    match markOf info with
    | none => matchLoop s rest
    | some mark =>
      match s.pendingJobs.find? (fun j => j.jobId == mark) with
      | none => matchLoop s rest
      | some pending => matchLoop (attemptAssignment s pending info MatchingMethod.byJobId) rest

/-! ## Phase B — fallback match (lines 373-429) -/

/-- The `job.pollCount += 1` performed for every still-pending job. -/
def incPollCount (j : PendingJobInfo) : PendingJobInfo :=
  { j with pollCount := j.pollCount + 1 }

/-- `collectFallbackReadyJobs` (lines 373-382): increment every pending
job's `pollCount`, then return those whose (incremented) count has reached
`FALLBACK_POLLS_THRESHOLD`. -/
def collectFallbackReadyJobs (cfg : SyntxConfig) (s : SyntxState) :
    SyntxState × List PendingJobInfo :=
  let updated := s.pendingJobs.map incPollCount
  ({ s with pendingJobs := updated },
   updated.filter (fun j => decide (cfg.fallbackPollsThreshold ≤ j.pollCount)))

/-- `job.sentAt || job.jobCreatedAt` (line 401): JS falsy-or on numbers;
`0` is the only falsy `Int` in this model (`NaN` is not representable). -/
def targetTimestamp (job : PendingJobInfo) : Int :=
  if job.sentAt = 0 then job.jobCreatedAt else job.sentAt

/-- One iteration of the candidate-selection loop (lines 405-414), carrying
`(selected, bestDiff)`; `none` is the initial `selected = null`,
`bestDiff = Infinity` state, in which any in-window diff wins. -/
def selectStep (reserved : List Nat) (window target : Int)
    (acc : Option (VideoMessageInfo × Int)) (c : VideoMessageInfo) :
    Option (VideoMessageInfo × Int) :=
  if c.msgId ∈ reserved then acc
  else
    let diff := |c.dateMs - target|
    match acc with
    | none => if diff ≤ window then some (c, diff) else none
    | some (sel, bd) => if diff ≤ window ∧ diff < bd then some (c, diff) else some (sel, bd)

/-- The fallback candidate selected for one job: the unreserved candidate
whose timestamp is nearest `target`, provided the difference is within
`window`; earlier candidates win exact ties (strict `diff < bestDiff`). -/
def selectCandidate (reserved : List Nat) (window target : Int)
    (candidates : List VideoMessageInfo) : Option VideoMessageInfo :=
  (candidates.foldl (selectStep reserved window target) none).map (fun p => p.1)

/-- The `for (const job of fallbackJobs)` loop (lines 400-428): select a
candidate for each job in order, attempt the assignment, and splice the
selected candidate out of the pool. -/
def processFallbackLoop (cfg : SyntxConfig) :
    SyntxState → List VideoMessageInfo → List PendingJobInfo → SyntxState
  | s, _, [] => s
  | s, candidates, job :: rest =>
    match selectCandidate s.reservedMessageIds cfg.fallbackWindowMs
        (targetTimestamp job) candidates with
    | none => processFallbackLoop cfg s candidates rest
    | some sel =>
      processFallbackLoop cfg (attemptAssignment s job sel MatchingMethod.byTimestamp)
        (candidates.erase sel) rest

/-- `processFallbackMatches` (lines 384-429): no-op without eligible jobs or
without marker-less candidates; otherwise run the per-job loop. -/
def processFallbackMatches (cfg : SyntxConfig) (s : SyntxState)
    (videoMessages : List VideoMessageInfo) (fallbackJobs : List PendingJobInfo) :
    SyntxState :=
  if fallbackJobs.isEmpty then s
  else
    let candidates := videoMessages.filter (fun i => !(jobIdMarkPresent i))
    if candidates.isEmpty then s
    else processFallbackLoop cfg s candidates fallbackJobs

/-! ## Timeout sweep and the cycle (lines 292-315, 467-479) -/

/-- `checkPendingTimeouts`: every pending job with `now > deadline` is
removed from the registry and rejected with a timeout. -/
def checkPendingTimeouts (s : SyntxState) (now : Int) : SyntxState :=
  { s with
    pendingJobs := s.pendingJobs.filter (fun j => !(decide (j.deadline < now))),
    settled := s.settled ++
      (s.pendingJobs.filter (fun j => decide (j.deadline < now))).map
        (fun j => (j.jobId, Outcome.timedOut)) }

/-- `pollOnce` (lines 292-315): bump the cumulative scan counter by the
batch size, build the candidate list, run phase A, increment poll counts
and collect fallback-ready jobs, run phase B, then sweep timeouts (`now` is
the `Date.now()` sampled by the sweep). -/
def pollOnce (cfg : SyntxConfig) (s : SyntxState) (messages : List Msg)
    (now : Int) : SyntxState :=
  let s1 := { s with totalMessagesScanned := s.totalMessagesScanned + messages.length }
  let infos := filterVideoMessages messages
  let s2 := matchLoop s1 infos
  let cf := collectFallbackReadyJobs cfg s2
  let s4 := processFallbackMatches cfg cf.1 infos cf.2
  checkPendingTimeouts s4 now

/-- A run of consecutive poll cycles, each with its fetched batch and its
sweep time. -/
def runCycles (cfg : SyntxConfig) : SyntxState → List (List Msg × Int) → SyntxState
  | s, [] => s
  | s, cy :: rest => runCycles cfg (pollOnce cfg s cy.1 cy.2) rest

/-- The jobIds of the jobs currently in the pending registry. -/
def pendingKeys (s : SyntxState) : List Str :=
  s.pendingJobs.map (fun j => j.jobId)

/-- The jobIds of the settlements performed so far. -/
def settledKeys (s : SyntxState) : List Str :=
  s.settled.map (fun e => e.1)

/-- The message ids referenced by successful (matched) settlements. -/
def msgIdsOfSettled (settled : List (Str × Outcome)) : List Nat :=
  settled.filterMap fun e =>
    match e.2 with
    | Outcome.matched m _ _ => some m
    | Outcome.timedOut => none

/-! ## Poll-loop lifecycle flags (lines 61, 270-290) -/

/-- The process-wide loop bookkeeping: the `pollerRunning` boolean guard and
whether a `pollLoop` invocation is actually in flight. -/
structure PollerFlags where
  pollerRunning : Bool
  loopActive : Bool
deriving DecidableEq

/-- `ensurePolling` (lines 270-278): a no-op while `pollerRunning` is set;
otherwise set the flag and launch one `pollLoop` invocation. -/
def ensurePolling (f : PollerFlags) : PollerFlags :=
  if f.pollerRunning then f else { pollerRunning := true, loopActive := true }

/-- `pollLoop` finishing normally (line 289): the registry drained, the
loop clears `pollerRunning` and returns. -/
def pollLoopExit (_ : PollerFlags) : PollerFlags :=
  { pollerRunning := false, loopActive := false }

/-- The `.catch` handler on the `pollLoop()` call (lines 275-277): a fatal
error ends the loop invocation, and the handler only logs — it does not
clear `pollerRunning`. -/
def pollLoopFatalCatch (f : PollerFlags) : PollerFlags :=
  { f with loopActive := false }

/-! ## Invariants -/

/-- Message-id uniqueness invariant: every matched settlement's message id
is claimed in the external store, and no two settlements reference the same
message id. -/
def MsgInv (s : SyntxState) : Prop :=
  (∀ m ∈ msgIdsOfSettled s.settled, m ∈ storeKeys s.store) ∧
  (msgIdsOfSettled s.settled).Nodup

/-- Registry/settlement invariant: pending jobIds are distinct, each job is
settled at most once, and a settled job is no longer in the registry. -/
def RegInv (s : SyntxState) : Prop :=
  (pendingKeys s).Nodup ∧ (settledKeys s).Nodup ∧
  ∀ k ∈ settledKeys s, k ∉ pendingKeys s

/-- `s'` extends `s` by settlements only as far as the scan counter and the
settlement log are concerned: the counter is unchanged and every new
matched settlement records the counter's current value. -/
def GoodExt (s s' : SyntxState) : Prop :=
  s'.totalMessagesScanned = s.totalMessagesScanned ∧
  ∃ new, s'.settled = s.settled ++ new ∧
    ∀ e ∈ new, ∀ mid meth k, e.2 = Outcome.matched mid meth k →
      k = s.totalMessagesScanned

/-- A candidate is eligible for fallback selection: not cached as reserved,
and within the fallback window of the target timestamp. -/
def EligCand (reserved : List Nat) (window target : Int)
    (c : VideoMessageInfo) : Prop :=
  c.msgId ∉ reserved ∧ |c.dateMs - target| ≤ window

/-- Key progress from `a` to `b`: settled jobIds are never lost, and a
pending jobId either stays pending or moves to the settlement log. -/
def KeyProg (a b : SyntxState) : Prop :=
  (∀ k ∈ settledKeys a, k ∈ settledKeys b) ∧
  (∀ k ∈ pendingKeys a, k ∈ pendingKeys b ∨ k ∈ settledKeys b)

/-! ## Basic lemmas about `attemptAssignment` -/

theorem attemptAssignment_cases (s : SyntxState) (job : PendingJobInfo)
    (info : VideoMessageInfo) (method : MatchingMethod) :
    ((attemptAssignment s job info method).pendingJobs = s.pendingJobs ∧
      (attemptAssignment s job info method).settled = s.settled ∧
      (attemptAssignment s job info method).store = s.store ∧
      (attemptAssignment s job info method).totalMessagesScanned
        = s.totalMessagesScanned) ∨
    (info.msgId ∉ storeKeys s.store ∧
      (attemptAssignment s job info method).pendingJobs
        = s.pendingJobs.filter (fun j => !(j.jobId == job.jobId)) ∧
      (attemptAssignment s job info method).settled
        = s.settled ++ [(job.jobId, Outcome.matched info.msgId method s.totalMessagesScanned)] ∧
      (attemptAssignment s job info method).store
        = (info.msgId, job.jobId, method) :: s.store ∧
      (attemptAssignment s job info method).totalMessagesScanned
        = s.totalMessagesScanned) := by
  unfold attemptAssignment tryReserve
  by_cases h1 : info.msgId ∈ s.reservedMessageIds
  · left; simp [h1]
  · by_cases h2 : info.msgId ∈ storeKeys s.store
    · left; simp [h1, h2]
    · right; simp [h1, h2]

theorem storeKeys_cons (e : Nat × Str × MatchingMethod)
    (st : List (Nat × Str × MatchingMethod)) :
    storeKeys (e :: st) = e.1 :: storeKeys st := rfl

theorem msgIdsOfSettled_append (a b : List (Str × Outcome)) :
    msgIdsOfSettled (a ++ b) = msgIdsOfSettled a ++ msgIdsOfSettled b := by
  simp [msgIdsOfSettled]

theorem attemptAssignment_pending_sub (s : SyntxState) (job : PendingJobInfo)
    (info : VideoMessageInfo) (method : MatchingMethod) :
    (attemptAssignment s job info method).pendingJobs ⊆ s.pendingJobs := by
  rcases attemptAssignment_cases s job info method with ⟨h, -⟩ | ⟨-, h, -⟩
  · rw [h]; exact fun a ha => ha
  · rw [h]; intro a ha; exact (List.mem_filter.mp ha).1

theorem attemptAssignment_pending_mem (s : SyntxState) (job : PendingJobInfo)
    (info : VideoMessageInfo) (method : MatchingMethod) (j : PendingJobInfo)
    (hj : j ∈ s.pendingJobs) (hne : j.jobId ≠ job.jobId) :
    j ∈ (attemptAssignment s job info method).pendingJobs := by
  rcases attemptAssignment_cases s job info method with ⟨h, -⟩ | ⟨-, h, -⟩
  · rw [h]; exact hj
  · rw [h]; simp [List.mem_filter, hj, hne]

theorem attemptAssignment_goodExt (s : SyntxState) (job : PendingJobInfo)
    (info : VideoMessageInfo) (method : MatchingMethod) :
    GoodExt s (attemptAssignment s job info method) := by
  rcases attemptAssignment_cases s job info method with ⟨-, h2, -, h4⟩ | ⟨-, -, h2, -, h4⟩
  · exact ⟨h4, [], by simp [h2], by simp⟩
  · refine ⟨h4, [(job.jobId, Outcome.matched info.msgId method s.totalMessagesScanned)], h2, ?_⟩
    rintro e he mid meth k hk
    simp only [List.mem_singleton] at he
    subst he
    simp only at hk
    cases hk
    rfl

theorem attemptAssignment_msgInv (s : SyntxState) (job : PendingJobInfo)
    (info : VideoMessageInfo) (method : MatchingMethod) (h : MsgInv s) :
    MsgInv (attemptAssignment s job info method) := by
  obtain ⟨hsub, hnd⟩ := h
  rcases attemptAssignment_cases s job info method with ⟨-, h2, h3, -⟩ | ⟨hfresh, -, h2, h3, -⟩
  · exact ⟨by rw [h2, h3]; exact hsub, by rw [h2]; exact hnd⟩
  · have hone : msgIdsOfSettled
        [(job.jobId, Outcome.matched info.msgId method s.totalMessagesScanned)]
        = [info.msgId] := rfl
    constructor
    · intro m hm
      rw [h2, msgIdsOfSettled_append, hone, List.mem_append] at hm
      rw [h3, storeKeys_cons]
      rcases hm with hm | hm
      · exact List.mem_cons_of_mem _ (hsub m hm)
      · rw [List.mem_singleton] at hm
        subst hm
        exact List.mem_cons_self _ _
    · rw [h2, msgIdsOfSettled_append, hone, List.nodup_append]
      refine ⟨hnd, List.nodup_singleton _, ?_⟩
      intro m hm hm'
      rw [List.mem_singleton] at hm'
      subst hm'
      exact hfresh (hsub _ hm)

theorem pendingKeys_def (s : SyntxState) :
    pendingKeys s = s.pendingJobs.map (fun j => j.jobId) := rfl

theorem settledKeys_def (s : SyntxState) :
    settledKeys s = s.settled.map (fun e => e.1) := rfl

theorem attemptAssignment_regInv (s : SyntxState) (job : PendingJobInfo)
    (info : VideoMessageInfo) (method : MatchingMethod) (h : RegInv s)
    (hmem : job ∈ s.pendingJobs) :
    RegInv (attemptAssignment s job info method) := by
  obtain ⟨hp, hs, hd⟩ := h
  rcases attemptAssignment_cases s job info method with ⟨h1, h2, -⟩ | ⟨-, h1, h2, -⟩
  · refine ⟨?_, ?_, ?_⟩
    · rw [pendingKeys_def, h1]; exact hp
    · rw [settledKeys_def, h2]; exact hs
    · intro k hk
      rw [settledKeys_def, h2] at hk
      rw [pendingKeys_def, h1]
      exact hd k hk
  · have hjid : job.jobId ∈ pendingKeys s := List.mem_map_of_mem _ hmem
    have hpsub : (attemptAssignment s job info method).pendingJobs.Sublist s.pendingJobs := by
      rw [h1]; exact List.filter_sublist _
    refine ⟨?_, ?_, ?_⟩
    · exact hp.sublist (hpsub.map _)
    · rw [settledKeys_def, h2, List.map_append, List.nodup_append]
      refine ⟨hs, List.nodup_singleton _, ?_⟩
      intro k hk hk'
      rw [List.map_singleton, List.mem_singleton] at hk'
      subst hk'
      exact hd _ hk hjid
    · intro k hk hk'
      rw [settledKeys_def, h2, List.map_append, List.mem_append] at hk
      obtain ⟨j, hj, hjk⟩ := List.mem_map.mp hk'
      have hj' : j ∈ s.pendingJobs := hpsub.subset hj
      rcases hk with hk | hk
      · exact hd k hk (hjk ▸ List.mem_map_of_mem _ hj')
      · rw [List.map_singleton, List.mem_singleton] at hk
        subst hk
        rw [h1, List.mem_filter] at hj
        have := hj.2
        simp only [Bool.not_eq_true', beq_eq_false_iff_ne, ne_eq] at this
        exact this hjk

/-! ## Lifting preservation through the matcher loops -/

theorem matchLoop_pres (P : SyntxState → Prop)
    (hA : ∀ s job info m, P s → job ∈ s.pendingJobs →
      P (attemptAssignment s job info m)) :
    ∀ infos s, P s → P (matchLoop s infos) := by
  intro infos
  induction infos with
  | nil => exact fun s h => h
  | cons info rest ih =>
    intro s h
    simp only [matchLoop]
    split
    · exact ih s h
    · split
      · exact ih s h
      · rename_i pending hf
        exact ih _ (hA s pending info _ h (List.mem_of_find?_eq_some hf))

theorem matchLoop_rel (R : SyntxState → SyntxState → Prop)
    (hrefl : ∀ s, R s s)
    (htrans : ∀ a b c, R a b → R b c → R a c)
    (hA : ∀ s job info m, R s (attemptAssignment s job info m)) :
    ∀ infos s, R s (matchLoop s infos) := by
  intro infos
  induction infos with
  | nil => exact fun s => hrefl s
  | cons info rest ih =>
    intro s
    simp only [matchLoop]
    split
    · exact ih s
    · split
      · exact ih s
      · exact htrans _ _ _ (hA s _ info _) (ih _)

theorem processFallbackLoop_rel (cfg : SyntxConfig)
    (R : SyntxState → SyntxState → Prop)
    (hrefl : ∀ s, R s s)
    (htrans : ∀ a b c, R a b → R b c → R a c)
    (hA : ∀ s job info m, R s (attemptAssignment s job info m)) :
    ∀ jobs cands s, R s (processFallbackLoop cfg s cands jobs) := by
  intro jobs
  induction jobs with
  | nil => exact fun cands s => hrefl s
  | cons job rest ih =>
    intro cands s
    simp only [processFallbackLoop]
    split
    · exact ih cands s
    · exact htrans _ _ _ (hA s job _ _) (ih _ _)

theorem processFallbackLoop_regInv (cfg : SyntxConfig) :
    ∀ (jobs : List PendingJobInfo) (cands : List VideoMessageInfo)
      (s : SyntxState), RegInv s →
      (∀ j ∈ jobs, j ∈ s.pendingJobs) →
      (jobs.map (fun j => j.jobId)).Nodup →
      RegInv (processFallbackLoop cfg s cands jobs) := by
  intro jobs
  induction jobs with
  | nil => exact fun cands s h _ _ => h
  | cons job rest ih =>
    intro cands s h hmem hnd
    rw [List.map_cons, List.nodup_cons] at hnd
    obtain ⟨hjid_notin, hnd'⟩ := hnd
    have hjid_notin : job.jobId ∉ rest.map (fun j => j.jobId) := hjid_notin
    simp only [processFallbackLoop]
    split
    · exact ih cands s h (fun j hj => hmem j (List.mem_cons_of_mem _ hj)) hnd'
    · rename_i sel hsel
      have hj : job ∈ s.pendingJobs := hmem job (List.mem_cons_self _ _)
      refine ih _ _ (attemptAssignment_regInv s job sel _ h hj) ?_ hnd'
      intro j hjr
      refine attemptAssignment_pending_mem s job sel _ j
        (hmem j (List.mem_cons_of_mem _ hjr)) ?_
      intro heq
      exact hjid_notin (heq ▸ List.mem_map_of_mem _ hjr)

theorem processFallbackMatches_eq (cfg : SyntxConfig) (s : SyntxState)
    (infos : List VideoMessageInfo) (fallbackJobs : List PendingJobInfo) :
    processFallbackMatches cfg s infos fallbackJobs = s ∨
    processFallbackMatches cfg s infos fallbackJobs =
      processFallbackLoop cfg s (infos.filter (fun i => !(jobIdMarkPresent i)))
        fallbackJobs := by
  unfold processFallbackMatches
  by_cases h1 : fallbackJobs.isEmpty
  · left; simp [h1]
  · by_cases h2 : (infos.filter (fun i => !(jobIdMarkPresent i))).isEmpty
    · left; simp [h1, h2]
    · right; simp [h1, h2]

theorem processFallbackMatches_rel (cfg : SyntxConfig)
    (R : SyntxState → SyntxState → Prop)
    (hrefl : ∀ s, R s s)
    (htrans : ∀ a b c, R a b → R b c → R a c)
    (hA : ∀ s job info m, R s (attemptAssignment s job info m))
    (s : SyntxState) (infos : List VideoMessageInfo)
    (fallbackJobs : List PendingJobInfo) :
    R s (processFallbackMatches cfg s infos fallbackJobs) := by
  rcases processFallbackMatches_eq cfg s infos fallbackJobs with h | h
  · rw [h]; exact hrefl s
  · rw [h]; exact processFallbackLoop_rel cfg R hrefl htrans hA _ _ s

theorem processFallbackMatches_regInv (cfg : SyntxConfig) (s : SyntxState)
    (infos : List VideoMessageInfo) (fallbackJobs : List PendingJobInfo)
    (h : RegInv s)
    (hmem : ∀ j ∈ fallbackJobs, j ∈ s.pendingJobs)
    (hnd : (fallbackJobs.map (fun j => j.jobId)).Nodup) :
    RegInv (processFallbackMatches cfg s infos fallbackJobs) := by
  rcases processFallbackMatches_eq cfg s infos fallbackJobs with he | he
  · rw [he]; exact h
  · rw [he]; exact processFallbackLoop_regInv cfg _ _ s h hmem hnd

/-! ## Lemmas about `collectFallbackReadyJobs` and `checkPendingTimeouts` -/

theorem collect_fst (cfg : SyntxConfig) (s : SyntxState) :
    (collectFallbackReadyJobs cfg s).1
      = { s with pendingJobs := s.pendingJobs.map incPollCount } := rfl

theorem collect_snd (cfg : SyntxConfig) (s : SyntxState) :
    (collectFallbackReadyJobs cfg s).2
      = (s.pendingJobs.map incPollCount).filter
          (fun j => decide (cfg.fallbackPollsThreshold ≤ j.pollCount)) := rfl

theorem keys_map_inc (l : List PendingJobInfo) :
    (l.map incPollCount).map (fun j => j.jobId) = l.map (fun j => j.jobId) := by
  rw [List.map_map]; rfl

theorem collect_regInv (cfg : SyntxConfig) (s : SyntxState) (h : RegInv s) :
    RegInv (collectFallbackReadyJobs cfg s).1 := by
  obtain ⟨hp, hs, hd⟩ := h
  rw [collect_fst]
  refine ⟨?_, hs, ?_⟩
  · show ((s.pendingJobs.map incPollCount).map (fun j => j.jobId)).Nodup
    rw [keys_map_inc]; exact hp
  · intro k hk
    show k ∉ (s.pendingJobs.map incPollCount).map (fun j => j.jobId)
    rw [keys_map_inc]
    exact hd k hk

theorem msgIds_timeouts (l : List PendingJobInfo) :
    msgIdsOfSettled (l.map (fun j => (j.jobId, Outcome.timedOut))) = [] := by
  induction l with
  | nil => rfl
  | cons a l ih => simp only [List.map_cons, msgIdsOfSettled, List.filterMap_cons]; exact ih

theorem checkPendingTimeouts_msgInv (s : SyntxState) (now : Int) (h : MsgInv s) :
    MsgInv (checkPendingTimeouts s now) := by
  obtain ⟨hsub, hnd⟩ := h
  have hset : (checkPendingTimeouts s now).settled
      = s.settled ++ (s.pendingJobs.filter (fun j => decide (j.deadline < now))).map
          (fun j => (j.jobId, Outcome.timedOut)) := rfl
  have hids : msgIdsOfSettled (checkPendingTimeouts s now).settled
      = msgIdsOfSettled s.settled := by
    rw [hset, msgIdsOfSettled_append, msgIds_timeouts, List.append_nil]
  have hstore : (checkPendingTimeouts s now).store = s.store := rfl
  exact ⟨by rw [hids, hstore]; exact hsub, by rw [hids]; exact hnd⟩

theorem checkPendingTimeouts_goodExt (s : SyntxState) (now : Int) :
    GoodExt s (checkPendingTimeouts s now) := by
  refine ⟨rfl, _, rfl, ?_⟩
  rintro e he mid meth k hk
  obtain ⟨j, -, rfl⟩ := List.mem_map.mp he
  exact absurd hk (by simp)

theorem checkPendingTimeouts_regInv (s : SyntxState) (now : Int) (h : RegInv s) :
    RegInv (checkPendingTimeouts s now) := by
  obtain ⟨hp, hs, hd⟩ := h
  have hpend : (checkPendingTimeouts s now).pendingJobs
      = s.pendingJobs.filter (fun j => !(decide (j.deadline < now))) := rfl
  have hset : (checkPendingTimeouts s now).settled
      = s.settled ++ (s.pendingJobs.filter (fun j => decide (j.deadline < now))).map
          (fun j => (j.jobId, Outcome.timedOut)) := rfl
  have hkeepsub : (s.pendingJobs.filter
      (fun j => !(decide (j.deadline < now)))).Sublist s.pendingJobs :=
    List.filter_sublist _
  have hexpsub : (s.pendingJobs.filter
      (fun j => decide (j.deadline < now))).Sublist s.pendingJobs :=
    List.filter_sublist _
  have hskeys : settledKeys (checkPendingTimeouts s now)
      = settledKeys s ++ (s.pendingJobs.filter
          (fun j => decide (j.deadline < now))).map (fun j => j.jobId) := by
    rw [settledKeys_def, hset, List.map_append, List.map_map]
    rfl
  refine ⟨?_, ?_, ?_⟩
  · rw [pendingKeys_def, hpend]
    exact hp.sublist (hkeepsub.map _)
  · rw [hskeys, List.nodup_append]
    refine ⟨hs, hp.sublist (hexpsub.map _), ?_⟩
    intro k hk hk'
    obtain ⟨j, hj, rfl⟩ := List.mem_map.mp hk'
    exact hd _ hk (List.mem_map_of_mem _ (hexpsub.subset hj))
  · intro k hk hk'
    rw [hskeys, List.mem_append] at hk
    rw [pendingKeys_def, hpend] at hk'
    obtain ⟨j2, hj2, hj2k⟩ := List.mem_map.mp hk'
    have hj2mem : j2 ∈ s.pendingJobs := hkeepsub.subset hj2
    rcases hk with hk | hk
    · exact hd k hk (hj2k ▸ List.mem_map_of_mem _ hj2mem)
    · obtain ⟨j1, hj1, hj1k⟩ := List.mem_map.mp hk
      have hj1mem : j1 ∈ s.pendingJobs := hexpsub.subset hj1
      have heq : j1 = j2 :=
        List.inj_on_of_nodup_map hp hj1mem hj2mem (by rw [hj1k, hj2k])
      subst heq
      have h1 := (List.mem_filter.mp hj1).2
      have h2 := (List.mem_filter.mp hj2).2
      rw [h1] at h2
      exact absurd h2 (by simp)

/-! ## `pollOnce` and `runCycles` preservation -/

theorem pollOnce_def (cfg : SyntxConfig) (s : SyntxState) (messages : List Msg)
    (now : Int) :
    pollOnce cfg s messages now =
      checkPendingTimeouts
        (processFallbackMatches cfg
          (collectFallbackReadyJobs cfg (matchLoop
            { s with totalMessagesScanned := s.totalMessagesScanned + messages.length }
            (filterVideoMessages messages))).1
          (filterVideoMessages messages)
          (collectFallbackReadyJobs cfg (matchLoop
            { s with totalMessagesScanned := s.totalMessagesScanned + messages.length }
            (filterVideoMessages messages))).2)
        now := rfl

theorem pollOnce_msgInv (cfg : SyntxConfig) (s : SyntxState) (messages : List Msg)
    (now : Int) (h : MsgInv s) : MsgInv (pollOnce cfg s messages now) := by
  rw [pollOnce_def]
  have h1 : MsgInv { s with totalMessagesScanned
      := s.totalMessagesScanned + messages.length } := h
  have h2 := matchLoop_pres MsgInv
    (fun s j i m hh _ => attemptAssignment_msgInv s j i m hh)
    (filterVideoMessages messages) _ h1
  have h3 : MsgInv (collectFallbackReadyJobs cfg (matchLoop
      { s with totalMessagesScanned := s.totalMessagesScanned + messages.length }
      (filterVideoMessages messages))).1 := h2
  have h4 : MsgInv (processFallbackMatches cfg
      (collectFallbackReadyJobs cfg (matchLoop
        { s with totalMessagesScanned := s.totalMessagesScanned + messages.length }
        (filterVideoMessages messages))).1
      (filterVideoMessages messages)
      (collectFallbackReadyJobs cfg (matchLoop
        { s with totalMessagesScanned := s.totalMessagesScanned + messages.length }
        (filterVideoMessages messages))).2) :=
    processFallbackMatches_rel cfg (fun a b => MsgInv a → MsgInv b)
      (fun _ hh => hh) (fun _ _ _ hab hbc ha => hbc (hab ha))
      (fun s j i m hh => attemptAssignment_msgInv s j i m hh) _
      (filterVideoMessages messages) _ h3
  exact checkPendingTimeouts_msgInv _ now h4

theorem pollOnce_regInv (cfg : SyntxConfig) (s : SyntxState) (messages : List Msg)
    (now : Int) (h : RegInv s) : RegInv (pollOnce cfg s messages now) := by
  rw [pollOnce_def]
  have h1 : RegInv { s with totalMessagesScanned
      := s.totalMessagesScanned + messages.length } := h
  have h2 := matchLoop_pres RegInv
    (fun s j i m hh hmem => attemptAssignment_regInv s j i m hh hmem)
    (filterVideoMessages messages) _ h1
  have h3 := collect_regInv cfg _ h2
  have h4 : RegInv (processFallbackMatches cfg
      (collectFallbackReadyJobs cfg (matchLoop
        { s with totalMessagesScanned := s.totalMessagesScanned + messages.length }
        (filterVideoMessages messages))).1
      (filterVideoMessages messages)
      (collectFallbackReadyJobs cfg (matchLoop
        { s with totalMessagesScanned := s.totalMessagesScanned + messages.length }
        (filterVideoMessages messages))).2) := by
    refine processFallbackMatches_regInv cfg _ _ _ h3 ?_ ?_
    · intro j hj
      rw [collect_snd] at hj
      rw [collect_fst]
      exact (List.filter_sublist _).subset hj
    · rw [collect_snd]
      have hnd : (((matchLoop { s with totalMessagesScanned
          := s.totalMessagesScanned + messages.length }
          (filterVideoMessages messages)).pendingJobs.map incPollCount).map
            (fun j => j.jobId)).Nodup := by
        rw [keys_map_inc]
        exact h2.1
      exact hnd.sublist ((List.filter_sublist _).map _)
  exact checkPendingTimeouts_regInv _ now h4

theorem runCycles_msgInv (cfg : SyntxConfig) :
    ∀ (cycles : List (List Msg × Int)) (s : SyntxState), MsgInv s →
      MsgInv (runCycles cfg s cycles) := by
  intro cycles
  induction cycles with
  | nil => exact fun s h => h
  | cons cy rest ih =>
    intro s h
    exact ih _ (pollOnce_msgInv cfg s cy.1 cy.2 h)

theorem runCycles_regInv (cfg : SyntxConfig) :
    ∀ (cycles : List (List Msg × Int)) (s : SyntxState), RegInv s →
      RegInv (runCycles cfg s cycles) := by
  intro cycles
  induction cycles with
  | nil => exact fun s h => h
  | cons cy rest ih =>
    intro s h
    exact ih _ (pollOnce_regInv cfg s cy.1 cy.2 h)

/-! ## Tracking the scan counter and new settlements (`GoodExt`) -/

theorem goodExt_refl (s : SyntxState) : GoodExt s s :=
  ⟨rfl, [], by simp, fun e he => absurd he (List.not_mem_nil e)⟩

theorem goodExt_trans (a b c : SyntxState) (h1 : GoodExt a b) (h2 : GoodExt b c) :
    GoodExt a c := by
  obtain ⟨ht1, n1, hs1, hp1⟩ := h1
  obtain ⟨ht2, n2, hs2, hp2⟩ := h2
  refine ⟨by rw [ht2, ht1], n1 ++ n2, by rw [hs2, hs1, List.append_assoc], ?_⟩
  intro e he mid meth k hk
  rcases List.mem_append.mp he with he | he
  · exact hp1 e he mid meth k hk
  · exact ht1 ▸ hp2 e he mid meth k hk

theorem pollOnce_goodExt (cfg : SyntxConfig) (s : SyntxState) (messages : List Msg)
    (now : Int) :
    GoodExt { s with totalMessagesScanned := s.totalMessagesScanned + messages.length }
      (pollOnce cfg s messages now) := by
  rw [pollOnce_def]
  have hml := matchLoop_rel GoodExt goodExt_refl goodExt_trans
    (fun s j i m => attemptAssignment_goodExt s j i m) (filterVideoMessages messages)
    { s with totalMessagesScanned := s.totalMessagesScanned + messages.length }
  have hcol : GoodExt (matchLoop
      { s with totalMessagesScanned := s.totalMessagesScanned + messages.length }
      (filterVideoMessages messages))
      (collectFallbackReadyJobs cfg (matchLoop
        { s with totalMessagesScanned := s.totalMessagesScanned + messages.length }
        (filterVideoMessages messages))).1 :=
    ⟨rfl, [], by rw [collect_fst]; simp, fun e he => absurd he (List.not_mem_nil e)⟩
  have hfb := processFallbackMatches_rel cfg GoodExt goodExt_refl goodExt_trans
    (fun s j i m => attemptAssignment_goodExt s j i m)
    (collectFallbackReadyJobs cfg (matchLoop
      { s with totalMessagesScanned := s.totalMessagesScanned + messages.length }
      (filterVideoMessages messages))).1
    (filterVideoMessages messages)
    (collectFallbackReadyJobs cfg (matchLoop
      { s with totalMessagesScanned := s.totalMessagesScanned + messages.length }
      (filterVideoMessages messages))).2
  have hsw := checkPendingTimeouts_goodExt (processFallbackMatches cfg
    (collectFallbackReadyJobs cfg (matchLoop
      { s with totalMessagesScanned := s.totalMessagesScanned + messages.length }
      (filterVideoMessages messages))).1
    (filterVideoMessages messages)
    (collectFallbackReadyJobs cfg (matchLoop
      { s with totalMessagesScanned := s.totalMessagesScanned + messages.length }
      (filterVideoMessages messages))).2) now
  exact goodExt_trans _ _ _ (goodExt_trans _ _ _ (goodExt_trans _ _ _ hml hcol) hfb) hsw

theorem pollOnce_total (cfg : SyntxConfig) (s : SyntxState) (messages : List Msg)
    (now : Int) :
    (pollOnce cfg s messages now).totalMessagesScanned
      = s.totalMessagesScanned + messages.length :=
  (pollOnce_goodExt cfg s messages now).1

theorem runCycles_total (cfg : SyntxConfig) :
    ∀ (cycles : List (List Msg × Int)) (s : SyntxState),
      (runCycles cfg s cycles).totalMessagesScanned
        = s.totalMessagesScanned + (cycles.map (fun cy => cy.1.length)).sum := by
  intro cycles
  induction cycles with
  | nil => intro s; simp [runCycles]
  | cons cy rest ih =>
    intro s
    show (runCycles cfg (pollOnce cfg s cy.1 cy.2) rest).totalMessagesScanned = _
    rw [ih, pollOnce_total]
    simp [Nat.add_assoc]

/-! ## Survive-or-settle (`KeyProg`) and tracing pending jobs -/

theorem keyProg_refl (s : SyntxState) : KeyProg s s :=
  ⟨fun _ hk => hk, fun _ hk => Or.inl hk⟩

theorem keyProg_trans (a b c : SyntxState) (h1 : KeyProg a b) (h2 : KeyProg b c) :
    KeyProg a c := by
  refine ⟨fun k hk => h2.1 k (h1.1 k hk), fun k hk => ?_⟩
  rcases h1.2 k hk with hk' | hk'
  · exact h2.2 k hk'
  · exact Or.inr (h2.1 k hk')

theorem attemptAssignment_keyProg (s : SyntxState) (job : PendingJobInfo)
    (info : VideoMessageInfo) (method : MatchingMethod) :
    KeyProg s (attemptAssignment s job info method) := by
  rcases attemptAssignment_cases s job info method with ⟨h1, h2, -⟩ | ⟨-, h1, h2, -⟩
  · constructor
    · intro k hk; rw [settledKeys_def, h2]; exact hk
    · intro k hk; left; rw [pendingKeys_def, h1]; exact hk
  · have hsk : settledKeys (attemptAssignment s job info method)
        = settledKeys s ++ [job.jobId] := by
      rw [settledKeys_def, h2, List.map_append]; rfl
    constructor
    · intro k hk; rw [hsk]; exact List.mem_append_left _ hk
    · intro k hk
      by_cases hkeq : k = job.jobId
      · right; rw [hsk, hkeq]; exact List.mem_append_right _ (List.mem_singleton_self _)
      · left
        obtain ⟨j, hj, hjk⟩ := List.mem_map.mp hk
        rw [pendingKeys_def, h1]
        have hjne : (!(j.jobId == job.jobId)) = true := by
          simp only [Bool.not_eq_true', beq_eq_false_iff_ne, ne_eq]
          intro heq
          exact hkeq (hjk ▸ heq)
        exact hjk ▸ List.mem_map_of_mem _ (List.mem_filter.mpr ⟨hj, hjne⟩)

theorem checkPendingTimeouts_keyProg (s : SyntxState) (now : Int) :
    KeyProg s (checkPendingTimeouts s now) := by
  have hsk : settledKeys (checkPendingTimeouts s now)
      = settledKeys s ++ (s.pendingJobs.filter
          (fun j => decide (j.deadline < now))).map (fun j => j.jobId) := by
    show (s.settled ++ _).map _ = _
    rw [List.map_append, List.map_map]
    rfl
  constructor
  · intro k hk; rw [hsk]; exact List.mem_append_left _ hk
  · intro k hk
    obtain ⟨j, hj, hjk⟩ := List.mem_map.mp hk
    by_cases hexp : j.deadline < now
    · right
      rw [hsk]
      refine List.mem_append_right _ ?_
      exact hjk ▸ List.mem_map_of_mem _ (List.mem_filter.mpr ⟨hj, by simp [hexp]⟩)
    · left
      show k ∈ (s.pendingJobs.filter (fun j => !(decide (j.deadline < now)))).map
        (fun j => j.jobId)
      exact hjk ▸ List.mem_map_of_mem _ (List.mem_filter.mpr ⟨hj, by simp [hexp]⟩)

theorem pollOnce_keyProg (cfg : SyntxConfig) (s : SyntxState) (messages : List Msg)
    (now : Int) : KeyProg s (pollOnce cfg s messages now) := by
  rw [pollOnce_def]
  have h0 : KeyProg s { s with totalMessagesScanned
      := s.totalMessagesScanned + messages.length } :=
    ⟨fun k hk => hk, fun k hk => Or.inl hk⟩
  have hml := matchLoop_rel KeyProg keyProg_refl keyProg_trans
    attemptAssignment_keyProg (filterVideoMessages messages)
    { s with totalMessagesScanned := s.totalMessagesScanned + messages.length }
  have hcol : KeyProg (matchLoop
      { s with totalMessagesScanned := s.totalMessagesScanned + messages.length }
      (filterVideoMessages messages))
      (collectFallbackReadyJobs cfg (matchLoop
        { s with totalMessagesScanned := s.totalMessagesScanned + messages.length }
        (filterVideoMessages messages))).1 := by
    constructor
    · intro k hk; exact hk
    · intro k hk
      left
      show k ∈ ((matchLoop
        { s with totalMessagesScanned := s.totalMessagesScanned + messages.length }
        (filterVideoMessages messages)).pendingJobs.map incPollCount).map
          (fun j => j.jobId)
      rw [keys_map_inc]
      exact hk
  have hfb := processFallbackMatches_rel cfg KeyProg keyProg_refl keyProg_trans
    attemptAssignment_keyProg
    (collectFallbackReadyJobs cfg (matchLoop
      { s with totalMessagesScanned := s.totalMessagesScanned + messages.length }
      (filterVideoMessages messages))).1
    (filterVideoMessages messages)
    (collectFallbackReadyJobs cfg (matchLoop
      { s with totalMessagesScanned := s.totalMessagesScanned + messages.length }
      (filterVideoMessages messages))).2
  have hsw := checkPendingTimeouts_keyProg (processFallbackMatches cfg
    (collectFallbackReadyJobs cfg (matchLoop
      { s with totalMessagesScanned := s.totalMessagesScanned + messages.length }
      (filterVideoMessages messages))).1
    (filterVideoMessages messages)
    (collectFallbackReadyJobs cfg (matchLoop
      { s with totalMessagesScanned := s.totalMessagesScanned + messages.length }
      (filterVideoMessages messages))).2) now
  exact keyProg_trans _ _ _ (keyProg_trans _ _ _ (keyProg_trans _ _ _
    (keyProg_trans _ _ _ h0 hml) hcol) hfb) hsw

theorem pollOnce_pending_trace (cfg : SyntxConfig) (s : SyntxState)
    (messages : List Msg) (now : Int) (j' : PendingJobInfo)
    (h : j' ∈ (pollOnce cfg s messages now).pendingJobs) :
    ∃ j ∈ s.pendingJobs, j' = incPollCount j ∧ ¬(j'.deadline < now) := by
  rw [pollOnce_def] at h
  have hsweep : (checkPendingTimeouts (processFallbackMatches cfg
      (collectFallbackReadyJobs cfg (matchLoop
        { s with totalMessagesScanned := s.totalMessagesScanned + messages.length }
        (filterVideoMessages messages))).1
      (filterVideoMessages messages)
      (collectFallbackReadyJobs cfg (matchLoop
        { s with totalMessagesScanned := s.totalMessagesScanned + messages.length }
        (filterVideoMessages messages))).2) now).pendingJobs
      = (processFallbackMatches cfg
        (collectFallbackReadyJobs cfg (matchLoop
          { s with totalMessagesScanned := s.totalMessagesScanned + messages.length }
          (filterVideoMessages messages))).1
        (filterVideoMessages messages)
        (collectFallbackReadyJobs cfg (matchLoop
          { s with totalMessagesScanned := s.totalMessagesScanned + messages.length }
          (filterVideoMessages messages))).2).pendingJobs.filter
            (fun j => !(decide (j.deadline < now))) := rfl
  rw [hsweep] at h
  obtain ⟨h4, hkeep⟩ := List.mem_filter.mp h
  have hnotexp : ¬(j'.deadline < now) := by
    simpa using hkeep
  have hfbsub := processFallbackMatches_rel cfg
    (fun a b => b.pendingJobs ⊆ a.pendingJobs)
    (fun _ a ha => ha) (fun _ _ _ h1 h2 => h2.trans h1)
    (fun s j i m => attemptAssignment_pending_sub s j i m)
    (collectFallbackReadyJobs cfg (matchLoop
      { s with totalMessagesScanned := s.totalMessagesScanned + messages.length }
      (filterVideoMessages messages))).1
    (filterVideoMessages messages)
    (collectFallbackReadyJobs cfg (matchLoop
      { s with totalMessagesScanned := s.totalMessagesScanned + messages.length }
      (filterVideoMessages messages))).2
  have h3 : j' ∈ (collectFallbackReadyJobs cfg (matchLoop
      { s with totalMessagesScanned := s.totalMessagesScanned + messages.length }
      (filterVideoMessages messages))).1.pendingJobs := hfbsub h4
  have h3' : j' ∈ (matchLoop
      { s with totalMessagesScanned := s.totalMessagesScanned + messages.length }
      (filterVideoMessages messages)).pendingJobs.map incPollCount := h3
  obtain ⟨j2, hj2, hj2eq⟩ := List.mem_map.mp h3'
  have hmlsub := matchLoop_rel (fun a b => b.pendingJobs ⊆ a.pendingJobs)
    (fun _ a ha => ha) (fun _ _ _ h1 h2 => h2.trans h1)
    (fun s j i m => attemptAssignment_pending_sub s j i m)
    (filterVideoMessages messages)
    { s with totalMessagesScanned := s.totalMessagesScanned + messages.length }
  exact ⟨j2, hmlsub hj2, hj2eq.symm, hnotexp⟩

/-! ## Specification of the fallback candidate selection -/

theorem selectStep_cases (r : List Nat) (w t : Int)
    (acc : Option (VideoMessageInfo × Int)) (c : VideoMessageInfo) :
    (selectStep r w t acc c = acc ∧ (acc = none → ¬ EligCand r w t c) ∧
      (∀ a bd0, acc = some (a, bd0) → EligCand r w t c → bd0 ≤ |c.dateMs - t|)) ∨
    (selectStep r w t acc c = some (c, |c.dateMs - t|) ∧ c.msgId ∉ r ∧
      |c.dateMs - t| ≤ w ∧
      (∀ a bd0, acc = some (a, bd0) → |c.dateMs - t| < bd0)) ∨
    (acc = none ∧ selectStep r w t acc c = none ∧ ¬ EligCand r w t c) := by
  by_cases hres : c.msgId ∈ r
  · left
    refine ⟨by simp [selectStep, hres], ?_, ?_⟩
    · intro _ helig; exact helig.1 hres
    · intro a bd0 _ helig; exact absurd hres helig.1
  · cases acc with
    | none =>
      by_cases hw : |c.dateMs - t| ≤ w
      · right; left
        refine ⟨by simp [selectStep, hres, hw], hres, hw, ?_⟩
        intro a bd0 h; cases h
      · right; right
        refine ⟨rfl, by simp [selectStep, hres, hw], ?_⟩
        intro helig; exact hw helig.2
    | some p =>
      obtain ⟨a, bd0⟩ := p
      by_cases hcond : |c.dateMs - t| ≤ w ∧ |c.dateMs - t| < bd0
      · right; left
        refine ⟨by simp [selectStep, hres, hcond], hres, hcond.1, ?_⟩
        intro a' bd0' h
        simp only [Option.some.injEq, Prod.mk.injEq] at h
        exact h.2 ▸ hcond.2
      · left
        refine ⟨by simp [selectStep, hres, hcond], ?_, ?_⟩
        · intro h; cases h
        · intro a' bd0' h helig
          simp only [Option.some.injEq, Prod.mk.injEq] at h
          rw [← h.2]
          by_contra hlt
          push_neg at hlt
          exact hcond ⟨helig.2, hlt⟩

theorem selectFold_spec (r : List Nat) (w t : Int) :
    ∀ (cands : List VideoMessageInfo) (acc : Option (VideoMessageInfo × Int)),
      (∀ a bd, acc = some (a, bd) → bd = |a.dateMs - t| ∧ a.msgId ∉ r ∧ bd ≤ w) →
      (cands.foldl (selectStep r w t) acc = none →
          acc = none ∧ ∀ c ∈ cands, ¬ EligCand r w t c) ∧
      (∀ sel bd, cands.foldl (selectStep r w t) acc = some (sel, bd) →
          (bd = |sel.dateMs - t| ∧ sel.msgId ∉ r ∧ bd ≤ w) ∧
          (acc = some (sel, bd) ∨ sel ∈ cands) ∧
          (∀ d ∈ cands, EligCand r w t d → bd ≤ |d.dateMs - t|) ∧
          (∀ a bd0, acc = some (a, bd0) → bd ≤ bd0)) := by
  intro cands
  induction cands with
  | nil =>
    intro acc hacc
    constructor
    · intro hres
      exact ⟨hres, fun c hc => absurd hc (List.not_mem_nil c)⟩
    · intro sel bd hres
      simp only [List.foldl_nil] at hres
      refine ⟨hacc sel bd hres, Or.inl hres,
        fun d hd => absurd hd (List.not_mem_nil d), ?_⟩
      intro a bd0 ha
      rw [hres] at ha
      simp only [Option.some.injEq, Prod.mk.injEq] at ha
      exact le_of_eq ha.2
  | cons c cs ih =>
    intro acc hacc
    have hfold : (c :: cs).foldl (selectStep r w t) acc
        = cs.foldl (selectStep r w t) (selectStep r w t acc c) := rfl
    rcases selectStep_cases r w t acc c with
      ⟨heq, hnone_imp, hmin_imp⟩ | ⟨heq, hnr, hw, hlt⟩ | ⟨haccnone, heq, hnelig⟩
    · obtain ⟨ihn, ihs⟩ := ih acc hacc
      constructor
      · intro hres
        rw [hfold, heq] at hres
        obtain ⟨haccn, hall⟩ := ihn hres
        refine ⟨haccn, ?_⟩
        intro d hd
        rcases List.mem_cons.mp hd with hd | hd
        · exact hd ▸ hnone_imp haccn
        · exact hall d hd
      · intro sel bd hres
        rw [hfold, heq] at hres
        obtain ⟨hcore, hmem, hmin, hlast⟩ := ihs sel bd hres
        refine ⟨hcore, ?_, ?_, hlast⟩
        · rcases hmem with hmem | hmem
          · exact Or.inl hmem
          · exact Or.inr (List.mem_cons_of_mem _ hmem)
        · intro d hd helig
          rcases List.mem_cons.mp hd with hd | hd
          · subst hd
            cases hacceq : acc with
            | none => exact absurd helig (hnone_imp hacceq)
            | some p =>
              obtain ⟨a, bd0⟩ := p
              exact le_trans (hlast a bd0 hacceq) (hmin_imp a bd0 hacceq helig)
          · exact hmin d hd helig
    · have hacc' : ∀ a bd, selectStep r w t acc c = some (a, bd) →
          bd = |a.dateMs - t| ∧ a.msgId ∉ r ∧ bd ≤ w := by
        intro a bd h
        rw [heq] at h
        simp only [Option.some.injEq, Prod.mk.injEq] at h
        exact ⟨h.2.symm.trans (by rw [h.1]), h.1 ▸ hnr, h.2 ▸ hw⟩
      obtain ⟨ihn, ihs⟩ := ih (selectStep r w t acc c) hacc'
      constructor
      · intro hres
        rw [hfold] at hres
        obtain ⟨haccn, -⟩ := ihn hres
        rw [heq] at haccn
        cases haccn
      · intro sel bd hres
        rw [hfold] at hres
        obtain ⟨hcore, hmem, hmin, hlast⟩ := ihs sel bd hres
        have hbd_le : bd ≤ |c.dateMs - t| := hlast c (|c.dateMs - t|) heq
        refine ⟨hcore, ?_, ?_, ?_⟩
        · rcases hmem with hmem | hmem
          · rw [heq] at hmem
            simp only [Option.some.injEq, Prod.mk.injEq] at hmem
            exact Or.inr (hmem.1 ▸ List.mem_cons_self _ _)
          · exact Or.inr (List.mem_cons_of_mem _ hmem)
        · intro d hd helig
          rcases List.mem_cons.mp hd with hd | hd
          · exact hd ▸ hbd_le
          · exact hmin d hd helig
        · intro a bd0 hacceq
          exact le_trans hbd_le (le_of_lt (hlt a bd0 hacceq))
    · have hacc' : ∀ a bd, selectStep r w t acc c = some (a, bd) →
          bd = |a.dateMs - t| ∧ a.msgId ∉ r ∧ bd ≤ w := by
        intro a bd h
        rw [heq] at h
        cases h
      obtain ⟨ihn, ihs⟩ := ih (selectStep r w t acc c) hacc'
      constructor
      · intro hres
        rw [hfold] at hres
        obtain ⟨-, hall⟩ := ihn hres
        refine ⟨haccnone, ?_⟩
        intro d hd
        rcases List.mem_cons.mp hd with hd | hd
        · exact hd ▸ hnelig
        · exact hall d hd
      · intro sel bd hres
        rw [hfold] at hres
        obtain ⟨hcore, hmem, hmin, hlast⟩ := ihs sel bd hres
        refine ⟨hcore, ?_, ?_, ?_⟩
        · rcases hmem with hmem | hmem
          · rw [heq] at hmem; cases hmem
          · exact Or.inr (List.mem_cons_of_mem _ hmem)
        · intro d hd helig
          rcases List.mem_cons.mp hd with hd | hd
          · exact absurd helig (hd ▸ hnelig)
          · exact hmin d hd helig
        · intro a bd0 hacceq
          rw [haccnone] at hacceq
          cases hacceq

theorem selectCandidate_some_spec (r : List Nat) (w t : Int)
    (cands : List VideoMessageInfo) (c : VideoMessageInfo)
    (h : selectCandidate r w t cands = some c) :
    c ∈ cands ∧ c.msgId ∉ r ∧ |c.dateMs - t| ≤ w ∧
      ∀ d ∈ cands, EligCand r w t d → |c.dateMs - t| ≤ |d.dateMs - t| := by
  unfold selectCandidate at h
  cases hf : cands.foldl (selectStep r w t) none with
  | none => rw [hf] at h; cases h
  | some p =>
    obtain ⟨sel, bd⟩ := p
    rw [hf] at h
    simp only [Option.map_some', Option.some.injEq] at h
    subst h
    obtain ⟨⟨hbd, hnr, hw⟩, hmem, hmin, -⟩ :=
      ((selectFold_spec r w t cands none (fun a bd h => by cases h)).2) sel bd hf
    rcases hmem with hmem | hmem
    · cases hmem
    · exact ⟨hmem, hnr, hbd ▸ hw, fun d hd he => hbd ▸ hmin d hd he⟩

theorem selectCandidate_none_spec (r : List Nat) (w t : Int)
    (cands : List VideoMessageInfo)
    (h : selectCandidate r w t cands = none) :
    ∀ c ∈ cands, ¬ EligCand r w t c := by
  unfold selectCandidate at h
  cases hf : cands.foldl (selectStep r w t) none with
  | none =>
    exact ((selectFold_spec r w t cands none (fun a bd h => by cases h)).1 hf).2
  | some p => rw [hf] at h; cases h

/-! ## Lemmas about marker extraction -/

theorem takeWhile_append_all (p : Char → Bool) :
    ∀ (l r : Str), (∀ c ∈ l, p c = true) →
      (l ++ r).takeWhile p = l ++ r.takeWhile p := by
  intro l
  induction l with
  | nil => intro r _; rfl
  | cons a l ih =>
    intro r h
    rw [List.cons_append, List.takeWhile_cons,
      if_pos (h a (List.mem_cons_self _ _)), ih r
        (fun c hc => h c (List.mem_cons_of_mem _ hc)), List.cons_append]

theorem dropWhile_cons_neg (p : Char → Bool) (a : Char) (l : Str)
    (h : p a = false) : (a :: l).dropWhile p = a :: l := by
  rw [List.dropWhile_cons, if_neg]
  rw [h]
  exact fun hc => Bool.false_ne_true hc

theorem trimChars_eq_self (j : Str) (hne : j ≠ [])
    (hh : ∀ c, j.head? = some c → isJsSpace c = false)
    (hl : ∀ c, j.getLast? = some c → isJsSpace c = false) :
    trimChars j = j := by
  obtain ⟨a, l, rfl⟩ := List.exists_cons_of_ne_nil hne
  have ha : isJsSpace a = false := hh a rfl
  have hdrop : (a :: l).dropWhile isJsSpace = a :: l := dropWhile_cons_neg _ _ _ ha
  have hrevne : (a :: l).reverse ≠ [] := by simp
  obtain ⟨b, r, hrev⟩ := List.exists_cons_of_ne_nil hrevne
  have hb : isJsSpace b = false := by
    refine hl b ?_
    rw [List.getLast?_eq_head?_reverse, hrev]
    rfl
  show (((a :: l).dropWhile isJsSpace).reverse.dropWhile isJsSpace).reverse = a :: l
  rw [hdrop, hrev, dropWhile_cons_neg _ _ _ hb, ← hrev, List.reverse_reverse]

theorem stripMarkerLit_cons_ne (c : Char) (l : Str) (h : c ≠ '[') :
    stripMarkerLit (c :: l) = none := by
  unfold stripMarkerLit
  rw [if_neg]
  intro heq
  rw [List.take_succ_cons] at heq
  have heq2 : c :: l.take 7 = '[' :: ['J', 'O', 'B', '_', 'I', 'D', ':'] := heq
  exact h (List.cons_eq_cons.mp heq2).1

theorem tryMarkerAt_cons_ne (c : Char) (l : Str) (h : c ≠ '[') :
    tryMarkerAt (c :: l) = none := by
  unfold tryMarkerAt
  rw [stripMarkerLit_cons_ne c l h]

theorem markerCaptureAt_eval (j : Str) (hnb : ']' ∉ j) (a : Char) (l : Str)
    (hja : j = a :: l) (ha : isJsSpace a = false) :
    markerCaptureAt (' ' :: (j ++ [']'])) = some j := by
  have hallp : ∀ c ∈ j, (!(c == ']')) = true := by
    intro c hc
    simp only [Bool.not_eq_true', beq_eq_false_iff_ne, ne_eq]
    intro heq
    exact hnb (heq ▸ hc)
  have hpre : (' ' :: (j ++ [']'])).takeWhile (fun c => !(c == ']')) = ' ' :: j := by
    rw [List.takeWhile_cons, if_pos (by decide), takeWhile_append_all _ j [']'] hallp]
    simp [List.takeWhile_cons]
  have hcap : (' ' :: j).dropWhile isJsSpace = j := by
    rw [List.dropWhile_cons, if_pos (by decide), hja, dropWhile_cons_neg _ _ _ ha]
  unfold markerCaptureAt
  rw [hpre]
  have hlen1 : (' ' :: j).length ≠ (' ' :: (j ++ [']'])).length := by
    simp
  rw [if_neg hlen1]
  have hlen2 : (' ' :: j).length ≠ 0 := by simp
  rw [if_neg hlen2, hcap]
  have hne : j.isEmpty = false := by rw [hja]; rfl
  show (if j.isEmpty = true then some [(' ' :: j).getLastD ']'] else some j) = some j
  rw [hne]
  rfl

theorem findAux_lit_pos (x : Str) (cap : Str) (h : markerCaptureAt x = some cap) :
    findJobIdCaptureAux (jobMarkerLit ++ x) = some cap := by
  have hshape : jobMarkerLit ++ x
      = '[' :: ('J' :: 'O' :: 'B' :: '_' :: 'I' :: 'D' :: ':' :: x) := rfl
  rw [hshape]
  simp only [findJobIdCaptureAux]
  have htry : tryMarkerAt ('[' :: ('J' :: 'O' :: 'B' :: '_' :: 'I' :: 'D' :: ':' :: x))
      = some cap := by
    unfold tryMarkerAt
    have hstrip : stripMarkerLit ('[' :: ('J' :: 'O' :: 'B' :: '_' :: 'I' :: 'D' :: ':' :: x))
        = some x := rfl
    rw [hstrip]
    exact h
  rw [htry]

theorem findAux_clean_append (t : Str) :
    ∀ p : Str, containsMarkerStart p = false →
      findJobIdCaptureAux (p ++ '\n' :: t) = findJobIdCaptureAux ('\n' :: t) := by
  intro p
  induction p with
  | nil => intro _; rfl
  | cons c cs ih =>
    intro h
    have h' : (((c :: cs).take 8 == jobMarkerLit) || containsMarkerStart cs) = false := h
    rw [Bool.or_eq_false_iff] at h'
    obtain ⟨h1, h2⟩ := h'
    rw [beq_eq_false_iff_ne] at h1
    show findJobIdCaptureAux (c :: (cs ++ '\n' :: t)) = _
    simp only [findJobIdCaptureAux]
    have hstrip : stripMarkerLit (c :: (cs ++ '\n' :: t)) = none := by
      unfold stripMarkerLit
      rw [if_neg]
      intro heq
      have hsplit : c :: (cs ++ '\n' :: t) = (c :: cs) ++ ('\n' :: t) := rfl
      rw [hsplit] at heq
      by_cases hlen : 8 ≤ (c :: cs).length
      · rw [List.take_append_of_le_length hlen] at heq
        exact h1 heq
      · push_neg at hlen
        have hmem : ('\n' : Char) ∈ jobMarkerLit := by
          rw [← heq, List.take_append_eq_append_take]
          refine List.mem_append_right _ ?_
          have h8 : 8 - (c :: cs).length = (8 - (c :: cs).length - 1) + 1 := by
            omega
          rw [h8, List.take_succ_cons]
          exact List.mem_cons_self _ _
        exact absurd hmem (by decide)
    have htry : tryMarkerAt (c :: (cs ++ '\n' :: t)) = none := by
      unfold tryMarkerAt
      rw [hstrip]
    rw [htry]
    exact ih h2

theorem findAux_cons_ne (c : Char) (l : Str) (h : c ≠ '[') :
    findJobIdCaptureAux (c :: l) = findJobIdCaptureAux l := by
  simp only [findJobIdCaptureAux]
  rw [tryMarkerAt_cons_ne c l h]

theorem extract_roundtrip (prompt jobId : Str)
    (hclean : containsMarkerStart prompt = false)
    (hne : jobId ≠ []) (hnb : ']' ∉ jobId)
    (hh : ∀ c, jobId.head? = some c → isJsSpace c = false)
    (hl : ∀ c, jobId.getLast? = some c → isJsSpace c = false) :
    extractJobIdFromText (addJobIdToPrompt prompt jobId) = some jobId := by
  obtain ⟨a, l, hja⟩ := List.exists_cons_of_ne_nil hne
  have ha : isJsSpace a = false := hh a (by rw [hja]; rfl)
  unfold addJobIdToPrompt extractJobIdFromText
  rw [findAux_clean_append ('\n' :: (jobMarkerLit ++ (' ' :: (jobId ++ [']']))))
      prompt hclean,
    findAux_cons_ne _ _ (by decide), findAux_cons_ne _ _ (by decide),
    findAux_lit_pos _ jobId (markerCaptureAt_eval jobId hnb a l hja ha),
    Option.map_some', trimChars_eq_self jobId hne hh hl]

/-! ## Claim theorems -/

/-- C1 (counterexample): the claim's reference time `max(sentAt, createdAt)`
is not what the code computes.  For a job with `sentAt = 10` and
`createdAt = 1000` (window 100), the code's reference is `sentAt = 10`
(`job.sentAt || job.jobCreatedAt`), so the fallback selection picks the
candidate at timestamp 50 — which is 950 ms away from `max(sentAt,
createdAt) = 1000`, far outside the claimed window — while the candidate at
timestamp 1000 (distance 0 from the claimed reference) is passed over. -/
theorem c1_counterexample :
    targetTimestamp ⟨['j', '1'], 1, 1000, 10, 99999, 5⟩ = 10 ∧
    selectCandidate [] 100 (targetTimestamp ⟨['j', '1'], 1, 1000, 10, 99999, 5⟩)
      [⟨1, none, 1000⟩, ⟨2, none, 50⟩] = some ⟨2, none, 50⟩ ∧
    ¬(|(50 : Int) - max 10 1000| ≤ 100) ∧
    (|(1000 : Int) - max 10 1000| ≤ 100) := by
  decide

/-- C1 (amended): in fallback matching, for every fallback-eligible job the
candidate selected is the unreserved, marker-less, artifact-bearing
candidate whose timestamp is closest to the reference time `sentAt` if it
is nonzero, else `createdAt` (the JS `job.sentAt || job.jobCreatedAt`), and
only if its absolute time difference from that reference is within
`fallbackWindowMs`; when no candidate qualifies none is selected. -/
theorem c1_fallback_selection (r : List Nat) (w t : Int)
    (cands : List VideoMessageInfo) :
    (∀ c, selectCandidate r w t cands = some c →
      c ∈ cands ∧ c.msgId ∉ r ∧ |c.dateMs - t| ≤ w ∧
        ∀ d ∈ cands, d.msgId ∉ r → |d.dateMs - t| ≤ w →
          |c.dateMs - t| ≤ |d.dateMs - t|) ∧
    (selectCandidate r w t cands = none →
      ∀ c ∈ cands, c.msgId ∉ r → ¬(|c.dateMs - t| ≤ w)) ∧
    (∀ job : PendingJobInfo,
      targetTimestamp job
        = if job.sentAt = 0 then job.jobCreatedAt else job.sentAt) ∧
    (∀ (infos : List VideoMessageInfo),
      ∀ i ∈ infos.filter (fun i => !(jobIdMarkPresent i)),
        jobIdMarkPresent i = false) ∧
    (∀ (messages : List Msg), ∀ i ∈ filterVideoMessages messages,
      ∃ msg ∈ messages, msg.isVideo = true ∧ i.msgId = msg.id) := by
  refine ⟨?_, ?_, fun _ => rfl, ?_, ?_⟩
  · intro c h
    obtain ⟨hmem, hnr, hw, hmin⟩ := selectCandidate_some_spec r w t cands c h
    exact ⟨hmem, hnr, hw, fun d hd hnr' hw' => hmin d hd ⟨hnr', hw'⟩⟩
  · intro h c hc hnr hw
    exact selectCandidate_none_spec r w t cands h c hc ⟨hnr, hw⟩
  · intro infos i hi
    have hfi := List.mem_filter.mp hi
    simpa using hfi.2
  · intro messages i hi
    unfold filterVideoMessages at hi
    obtain ⟨msg, hmsg, heq⟩ := List.mem_filterMap.mp hi
    by_cases hv : msg.isVideo = true
    · rw [if_pos hv] at heq
      cases heq
      exact ⟨msg, hmsg, hv, rfl⟩
    · rw [if_neg hv] at heq
      cases heq

/-- C1 (witness): the amended selection theorem applied at a concrete
input where the job's reference time is `sentAt = 10`. -/
theorem c1_fallback_selection_witness :
    (⟨2, none, 50⟩ : VideoMessageInfo)
        ∈ ([⟨1, none, 1000⟩, ⟨2, none, 50⟩] : List VideoMessageInfo) ∧
    (2 : Nat) ∉ ([] : List Nat) ∧ (|(50 : Int) - 10| ≤ 100) ∧
    ∀ d ∈ ([⟨1, none, 1000⟩, ⟨2, none, 50⟩] : List VideoMessageInfo),
      d.msgId ∉ ([] : List Nat) → |d.dateMs - 10| ≤ 100 →
        |(50 : Int) - 10| ≤ |d.dateMs - 10| :=
  (c1_fallback_selection [] 100 10 [⟨1, none, 1000⟩, ⟨2, none, 50⟩]).1
    ⟨2, none, 50⟩ (by decide)

/-- C2 (counterexample): with the default threshold 3, a job whose
`pollCount` is `3 - 1 = 2` at the start of a cycle IS returned by
`collectFallbackReadyJobs` in that same cycle (the increment on line 376
happens before the `>=` check on line 377), contradicting the claim that it
is not fallback-eligible this cycle. -/
theorem c2_counterexample :
    (⟨['c', '1'], 1, 0, 0, 10, 2⟩ : PendingJobInfo).pollCount = 3 - 1 ∧
    (collectFallbackReadyJobs ⟨3, 120000⟩
        ⟨[⟨['c', '1'], 1, 0, 0, 10, 2⟩], [], [], 0, []⟩).2
      = [⟨['c', '1'], 1, 0, 0, 10, 3⟩] := by
  decide

/-- C2 (amended): the increment precedes the eligibility check, so a job
with `pollCount = fallbackPollThreshold - 1` at the start of a poll cycle
is fallback-eligible in that very cycle; a job with
`pollCount = fallbackPollThreshold - 2` at the start of a cycle is not
eligible in that cycle and becomes eligible after one more cycle. -/
theorem c2_threshold_boundary (cfg : SyntxConfig) (job : PendingJobInfo)
    (s : SyntxState) (hpend : s.pendingJobs = [job])
    (hcount : job.pollCount + 1 = cfg.fallbackPollsThreshold) :
    (collectFallbackReadyJobs cfg s).2 = [incPollCount job] ∧
    ∀ (s' : SyntxState) (job' : PendingJobInfo), s'.pendingJobs = [job'] →
      job'.pollCount + 2 = cfg.fallbackPollsThreshold →
      (collectFallbackReadyJobs cfg s').2 = [] ∧
      (collectFallbackReadyJobs cfg (collectFallbackReadyJobs cfg s').1).2
        = [incPollCount (incPollCount job')] := by
  constructor
  · rw [collect_snd, hpend]
    show [incPollCount job].filter _ = _
    rw [List.filter_cons]
    rw [if_pos]
    · rfl
    · show decide (cfg.fallbackPollsThreshold ≤ (incPollCount job).pollCount) = true
      rw [decide_eq_true_eq]
      show cfg.fallbackPollsThreshold ≤ job.pollCount + 1
      omega
  · intro s' job' hpend' hcount'
    constructor
    · rw [collect_snd, hpend']
      show [incPollCount job'].filter _ = _
      rw [List.filter_cons]
      rw [if_neg]
      · rfl
      · show ¬(decide (cfg.fallbackPollsThreshold ≤ (incPollCount job').pollCount)
            = true)
        rw [decide_eq_true_eq]
        show ¬(cfg.fallbackPollsThreshold ≤ job'.pollCount + 1)
        omega
    · rw [collect_snd, collect_fst, hpend']
      show [incPollCount (incPollCount job')].filter _ = _
      rw [List.filter_cons]
      rw [if_pos]
      · rfl
      · show decide (cfg.fallbackPollsThreshold
            ≤ (incPollCount (incPollCount job')).pollCount) = true
        rw [decide_eq_true_eq]
        show cfg.fallbackPollsThreshold ≤ job'.pollCount + 1 + 1
        omega

/-- C2 (witness): the amended threshold boundary applied at the default
threshold 3, to a job with `pollCount = 2` (eligible this cycle) and a job
with `pollCount = 1` (eligible only after one more cycle). -/
theorem c2_threshold_boundary_witness :
    (collectFallbackReadyJobs ⟨3, 120000⟩
        ⟨[⟨['a'], 1, 0, 0, 10, 2⟩], [], [], 0, []⟩).2
      = [incPollCount ⟨['a'], 1, 0, 0, 10, 2⟩] ∧
    ∀ (s' : SyntxState) (job' : PendingJobInfo), s'.pendingJobs = [job'] →
      job'.pollCount + 2 = (⟨3, 120000⟩ : SyntxConfig).fallbackPollsThreshold →
      (collectFallbackReadyJobs ⟨3, 120000⟩ s').2 = [] ∧
      (collectFallbackReadyJobs ⟨3, 120000⟩
        (collectFallbackReadyJobs ⟨3, 120000⟩ s').1).2
        = [incPollCount (incPollCount job')] :=
  c2_threshold_boundary ⟨3, 120000⟩ ⟨['a'], 1, 0, 0, 10, 2⟩
    ⟨[⟨['a'], 1, 0, 0, 10, 2⟩], [], [], 0, []⟩ rfl (by decide)

/-- C3: the claim is right and the code is wrong.  Starting from idle,
`ensurePolling` starts exactly one loop (and is a no-op while running), and
after a normal loop exit a new registration restarts it; but the `.catch`
handler on `pollLoop()` (lines 275-277) only logs and never clears
`pollerRunning`, so after a fatal loop error a subsequent registration
finds `pollerRunning = true` and returns without starting a loop: the loop
can never be restarted, contradicting the spec's requirement. -/
theorem c3_restart_divergence :
    ensurePolling ⟨false, false⟩ = ⟨true, true⟩ ∧
    ensurePolling (ensurePolling ⟨false, false⟩) = ⟨true, true⟩ ∧
    ensurePolling (pollLoopExit (ensurePolling ⟨false, false⟩)) = ⟨true, true⟩ ∧
    pollLoopFatalCatch (ensurePolling ⟨false, false⟩) = ⟨true, false⟩ ∧
    ensurePolling (pollLoopFatalCatch (ensurePolling ⟨false, false⟩))
      = ⟨true, false⟩ := by
  decide

/-- C6: when the reservation claim for a proposed binding fails (the
message id is already claimed in the external store), `attemptAssignment`
only adds the message id to the local reserved-id cache: the registry, the
store, the counter and the settlement log are untouched, so the job is not
settled and remains pending unchanged. -/
theorem c6_reservation_race_lost (s : SyntxState) (job : PendingJobInfo)
    (info : VideoMessageInfo) (method : MatchingMethod)
    (hcache : info.msgId ∉ s.reservedMessageIds)
    (hstore : info.msgId ∈ storeKeys s.store) :
    attemptAssignment s job info method
      = { s with reservedMessageIds := info.msgId :: s.reservedMessageIds } := by
  unfold attemptAssignment tryReserve
  rw [if_neg hcache, if_pos hstore]
  show { s with reservedMessageIds := addReserved s.reservedMessageIds info.msgId,
                store := s.store } = _
  rw [show addReserved s.reservedMessageIds info.msgId
      = info.msgId :: s.reservedMessageIds from by
    unfold addReserved; rw [if_neg hcache]]

/-- C6 (witness): a lost claim race at a concrete input leaves everything
but the reserved-id cache unchanged. -/
theorem c6_reservation_race_lost_witness :
    (10 : Nat) ∉ ([] : List Nat) ∧
    (10 : Nat) ∈ storeKeys [(10, ['x'], MatchingMethod.byJobId)] ∧
    attemptAssignment ⟨[⟨['a'], 1, 0, 0, 9, 0⟩], [], [(10, ['x'], MatchingMethod.byJobId)], 0, []⟩
        ⟨['a'], 1, 0, 0, 9, 0⟩ ⟨10, none, 3⟩ MatchingMethod.byTimestamp
      = { (⟨[⟨['a'], 1, 0, 0, 9, 0⟩], [], [(10, ['x'], MatchingMethod.byJobId)], 0, []⟩ : SyntxState)
            with reservedMessageIds := [10] } :=
  ⟨by decide, by decide,
   c6_reservation_race_lost
     ⟨[⟨['a'], 1, 0, 0, 9, 0⟩], [], [(10, ['x'], MatchingMethod.byJobId)], 0, []⟩
     ⟨['a'], 1, 0, 0, 9, 0⟩ ⟨10, none, 3⟩ MatchingMethod.byTimestamp
     (by decide) (by decide)⟩

/-- C7: the fallback window test is inclusive on both sides: a sole
unreserved candidate whose absolute time difference from the target equals
`fallbackWindowMs` exactly is selected, and any selected candidate's
difference is at most `fallbackWindowMs` (so a strictly greater difference
is never selected). -/
theorem c7_window_boundary (r : List Nat) (w t : Int) :
    (∀ (c : VideoMessageInfo), c.msgId ∉ r → |c.dateMs - t| = w →
      selectCandidate r w t [c] = some c) ∧
    (∀ (cands : List VideoMessageInfo) (c : VideoMessageInfo),
      selectCandidate r w t cands = some c → |c.dateMs - t| ≤ w) := by
  constructor
  · intro c hnr hw
    unfold selectCandidate
    rw [List.foldl_cons, List.foldl_nil]
    unfold selectStep
    rw [if_neg hnr]
    show Option.map _ (if |c.dateMs - t| ≤ w then _ else none) = _
    rw [if_pos (le_of_eq hw)]
    rfl
  · intro cands c h
    exact (selectCandidate_some_spec r w t cands c h).2.2.1

/-- C7 (witness): the boundary theorem applied at a concrete candidate
whose difference from the target is exactly the window (120000 default
scaled down to 120 here). -/
theorem c7_window_boundary_witness :
    ((⟨5, none, 130⟩ : VideoMessageInfo).msgId ∉ ([] : List Nat)) ∧
    (|(130 : Int) - 10| = 120) ∧
    selectCandidate [] 120 10 [⟨5, none, 130⟩] = some ⟨5, none, 130⟩ ∧
    (|(130 : Int) - 10| ≤ 120) :=
  ⟨by decide, by decide,
   (c7_window_boundary [] 120 10).1 ⟨5, none, 130⟩ (by decide) (by decide),
   (c7_window_boundary [] 120 10).2 [⟨5, none, 130⟩] ⟨5, none, 130⟩
     ((c7_window_boundary [] 120 10).1 ⟨5, none, 130⟩ (by decide) (by decide))⟩

/-- C4: across any run of poll cycles, at most one job ever settles
referencing a given message id: if every already-settled message id is
claimed in the external store and the settled ids are distinct, the same
holds after any number of cycles, because a matched settlement happens only
when the first-writer-wins reservation claim succeeds, and the reserved-id
cache plus the candidate-pool splice prevent re-proposals within a cycle. -/
theorem c4_no_double_claim (cfg : SyntxConfig) (s : SyntxState)
    (cycles : List (List Msg × Int))
    (hsub : ∀ m ∈ msgIdsOfSettled s.settled, m ∈ storeKeys s.store)
    (hnd : (msgIdsOfSettled s.settled).Nodup) :
    (msgIdsOfSettled (runCycles cfg s cycles).settled).Nodup ∧
    MsgInv (runCycles cfg s cycles) := by
  have h := runCycles_msgInv cfg cycles s ⟨hsub, hnd⟩
  exact ⟨h.2, h⟩

/-- C4 (witness): a concrete run in which a job settles on a marker match;
the settled message ids remain distinct. -/
theorem c4_no_double_claim_witness :
    (∀ m ∈ msgIdsOfSettled ([] : List (Str × Outcome)), m ∈ storeKeys []) ∧
    (msgIdsOfSettled ([] : List (Str × Outcome))).Nodup ∧
    (msgIdsOfSettled (runCycles ⟨3, 120000⟩
      ⟨[⟨['a', '1'], 1, 0, 0, 99999, 0⟩], [], [], 0, []⟩
      [([⟨10, true, ['[', 'J', 'O', 'B', '_', 'I', 'D', ':', ' ', 'a', '1', ']'], 0⟩],
        100)]).settled).Nodup :=
  ⟨by decide, by decide,
   (c4_no_double_claim ⟨3, 120000⟩
     ⟨[⟨['a', '1'], 1, 0, 0, 99999, 0⟩], [], [], 0, []⟩
     [([⟨10, true, ['[', 'J', 'O', 'B', '_', 'I', 'D', ':', ' ', 'a', '1', ']'], 0⟩],
       100)] (by decide) (by decide)).1⟩

/-- C5 (counterexample): a job whose deadline is already past at the start
of the cycle is matched by a marker candidate in the same cycle and settles
with a match, not a timeout — the matching phases run before the timeout
sweep and do not check the deadline, contradicting the claim's "regardless
of what candidates are available". -/
theorem c5_counterexample :
    (⟨['a', '1'], 1, 0, 0, -5, 0⟩ : PendingJobInfo).deadline < 100 ∧
    (pollOnce ⟨3, 120000⟩ ⟨[⟨['a', '1'], 1, 0, 0, -5, 0⟩], [], [], 0, []⟩
        [⟨10, true, ['[', 'J', 'O', 'B', '_', 'I', 'D', ':', ' ', 'a', '1', ']'], 0⟩]
        100).settled
      = [(['a', '1'], Outcome.matched 10 MatchingMethod.byJobId 1)] ∧
    (['a', '1'], Outcome.timedOut) ∉ (pollOnce ⟨3, 120000⟩
      ⟨[⟨['a', '1'], 1, 0, 0, -5, 0⟩], [], [], 0, []⟩
      [⟨10, true, ['[', 'J', 'O', 'B', '_', 'I', 'D', ':', ' ', 'a', '1', ']'], 0⟩]
      100).settled := by
  decide

/-- C5 (amended): a job whose deadline is in the past at the start of a
poll cycle is settled by the end of that cycle and removed from the
registry; it settles with a timeout failure unless a matching phase bound a
candidate to it earlier in that same cycle (any job still pending at the
sweep with an expired deadline is rejected with a timeout). -/
theorem c5_timeout_settlement (cfg : SyntxConfig) (s : SyntxState)
    (messages : List Msg) (now : Int) (job : PendingJobInfo)
    (hmem : job ∈ s.pendingJobs)
    (hnd : (pendingKeys s).Nodup)
    (hexp : job.deadline < now) :
    job.jobId ∉ pendingKeys (pollOnce cfg s messages now) ∧
    (∃ o, (job.jobId, o) ∈ (pollOnce cfg s messages now).settled) ∧
    (∀ (s4 : SyntxState) (j' : PendingJobInfo), j' ∈ s4.pendingJobs →
      j'.deadline < now →
      (j'.jobId, Outcome.timedOut) ∈ (checkPendingTimeouts s4 now).settled) := by
  have hnotpend : job.jobId ∉ pendingKeys (pollOnce cfg s messages now) := by
    intro hk
    obtain ⟨j', hj', hj'k⟩ := List.mem_map.mp hk
    obtain ⟨j, hj, hjeq, hjnot⟩ := pollOnce_pending_trace cfg s messages now j' hj'
    have hkey : j.jobId = job.jobId := by
      have hjj : j'.jobId = j.jobId := by rw [hjeq]; rfl
      rw [← hjj, hj'k]
    have heqj : j = job := List.inj_on_of_nodup_map hnd hj hmem hkey
    apply hjnot
    rw [hjeq]
    show j.deadline < now
    rw [heqj]
    exact hexp
  refine ⟨hnotpend, ?_, ?_⟩
  · have hkp := pollOnce_keyProg cfg s messages now
    have hjid : job.jobId ∈ pendingKeys s := List.mem_map_of_mem _ hmem
    rcases hkp.2 job.jobId hjid with hk | hk
    · exact absurd hk hnotpend
    · obtain ⟨e, he, heq⟩ := List.mem_map.mp hk
      exact ⟨e.2, by rw [← heq]; exact he⟩
  · intro s4 j' hj' hexp'
    show (j'.jobId, Outcome.timedOut) ∈ s4.settled
      ++ (s4.pendingJobs.filter (fun j => decide (j.deadline < now))).map
          (fun j => (j.jobId, Outcome.timedOut))
    refine List.mem_append_right _ ?_
    exact List.mem_map_of_mem _ (List.mem_filter.mpr ⟨hj', by simp [hexp']⟩)

/-- C5 (witness): the amended timeout theorem applied to a concrete expired
job with an empty batch: the job leaves the registry and settles. -/
theorem c5_timeout_settlement_witness :
    (['a', '1'] : Str) ∉ pendingKeys (pollOnce ⟨3, 120000⟩
      ⟨[⟨['a', '1'], 1, 0, 0, -5, 0⟩], [], [], 0, []⟩ [] 100) ∧
    (∃ o, ((['a', '1'] : Str), o) ∈ (pollOnce ⟨3, 120000⟩
      ⟨[⟨['a', '1'], 1, 0, 0, -5, 0⟩], [], [], 0, []⟩ [] 100).settled) ∧
    (∀ (s4 : SyntxState) (j' : PendingJobInfo), j' ∈ s4.pendingJobs →
      j'.deadline < 100 →
      (j'.jobId, Outcome.timedOut) ∈ (checkPendingTimeouts s4 100).settled) :=
  c5_timeout_settlement ⟨3, 120000⟩
    ⟨[⟨['a', '1'], 1, 0, 0, -5, 0⟩], [], [], 0, []⟩ [] 100
    ⟨['a', '1'], 1, 0, 0, -5, 0⟩ (by decide) (by decide) (by decide)

/-- C8: each job settles at most once and settlement removes it from the
registry: starting from distinct pending jobIds, distinct settled jobIds
and settled-pending disjointness, any run of poll cycles preserves all
three, so no operation can settle the same job a second time. -/
theorem c8_single_settlement (cfg : SyntxConfig) (s : SyntxState)
    (cycles : List (List Msg × Int))
    (hp : (pendingKeys s).Nodup) (hs : (settledKeys s).Nodup)
    (hd : ∀ k ∈ settledKeys s, k ∉ pendingKeys s) :
    (settledKeys (runCycles cfg s cycles)).Nodup ∧
    (∀ k ∈ settledKeys (runCycles cfg s cycles),
      k ∉ pendingKeys (runCycles cfg s cycles)) ∧
    RegInv (runCycles cfg s cycles) := by
  have h := runCycles_regInv cfg cycles s ⟨hp, hs, hd⟩
  exact ⟨h.2.1, h.2.2, h⟩

/-- C8 (witness): a run in which one job settles by marker and another
times out; the settled jobIds stay distinct and disjoint from the
registry. -/
theorem c8_single_settlement_witness :
    (settledKeys (runCycles ⟨3, 120000⟩
      ⟨[⟨['a', '1'], 1, 0, 0, 99999, 0⟩, ⟨['b', '1'], 2, 0, 0, -5, 0⟩], [], [], 0, []⟩
      [([⟨10, true, ['[', 'J', 'O', 'B', '_', 'I', 'D', ':', ' ', 'a', '1', ']'], 0⟩],
        100)])).Nodup ∧
    (∀ k ∈ settledKeys (runCycles ⟨3, 120000⟩
      ⟨[⟨['a', '1'], 1, 0, 0, 99999, 0⟩, ⟨['b', '1'], 2, 0, 0, -5, 0⟩], [], [], 0, []⟩
      [([⟨10, true, ['[', 'J', 'O', 'B', '_', 'I', 'D', ':', ' ', 'a', '1', ']'], 0⟩],
        100)]),
      k ∉ pendingKeys (runCycles ⟨3, 120000⟩
        ⟨[⟨['a', '1'], 1, 0, 0, 99999, 0⟩, ⟨['b', '1'], 2, 0, 0, -5, 0⟩], [], [], 0, []⟩
        [([⟨10, true, ['[', 'J', 'O', 'B', '_', 'I', 'D', ':', ' ', 'a', '1', ']'], 0⟩],
          100)])) :=
  ⟨(c8_single_settlement ⟨3, 120000⟩
      ⟨[⟨['a', '1'], 1, 0, 0, 99999, 0⟩, ⟨['b', '1'], 2, 0, 0, -5, 0⟩], [], [], 0, []⟩
      [([⟨10, true, ['[', 'J', 'O', 'B', '_', 'I', 'D', ':', ' ', 'a', '1', ']'], 0⟩],
        100)] (by decide) (by decide) (by decide)).1,
   (c8_single_settlement ⟨3, 120000⟩
      ⟨[⟨['a', '1'], 1, 0, 0, 99999, 0⟩, ⟨['b', '1'], 2, 0, 0, -5, 0⟩], [], [], 0, []⟩
      [([⟨10, true, ['[', 'J', 'O', 'B', '_', 'I', 'D', ':', ' ', 'a', '1', ']'], 0⟩],
        100)] (by decide) (by decide) (by decide)).2.1⟩

/-- C9 (counterexample): the claim fails for a prompt that contains the
partial literal `[JOB_ID:` without a closing bracket: the prompt contains
no marker of its own (extraction on the prompt alone yields `null`), the
jobId `a` is non-empty, bracket-free and trimmed, yet extracting from the
embedded content returns the capture `[JOB_ID: a` spanning the prompt's
dangling literal — not the embedded jobId. -/
theorem c9_counterexample :
    extractJobIdFromText ['[', 'J', 'O', 'B', '_', 'I', 'D', ':'] = none ∧
    (['a'] : Str) ≠ [] ∧ ']' ∉ (['a'] : Str) ∧ trimChars ['a'] = ['a'] ∧
    extractJobIdFromText
        (addJobIdToPrompt ['[', 'J', 'O', 'B', '_', 'I', 'D', ':'] ['a'])
      = some ['[', 'J', 'O', 'B', '_', 'I', 'D', ':', ' ', 'a'] ∧
    (['[', 'J', 'O', 'B', '_', 'I', 'D', ':', ' ', 'a'] : Str) ≠ ['a'] := by
  decide

/-- C9 (amended): marker embedding and extraction round-trip for every
prompt that contains no occurrence of the literal `[JOB_ID:` (not merely no
complete marker) and every non-empty jobId containing no `]` and no
leading or trailing whitespace: extraction from the embedded content
yields exactly that jobId. -/
theorem c9_marker_roundtrip (prompt jobId : Str)
    (hclean : containsMarkerStart prompt = false)
    (hne : jobId ≠ []) (hnb : ']' ∉ jobId)
    (hh : ∀ c, jobId.head? = some c → isJsSpace c = false)
    (hl : ∀ c, jobId.getLast? = some c → isJsSpace c = false) :
    extractJobIdFromText (addJobIdToPrompt prompt jobId) = some jobId :=
  extract_roundtrip prompt jobId hclean hne hnb hh hl

/-- C9 (witness): the round-trip at a concrete prompt and jobId. -/
theorem c9_marker_roundtrip_witness :
    containsMarkerStart ['h', 'i'] = false ∧
    (['a', '1'] : Str) ≠ [] ∧ ']' ∉ (['a', '1'] : Str) ∧
    extractJobIdFromText (addJobIdToPrompt ['h', 'i'] ['a', '1'])
      = some ['a', '1'] :=
  ⟨by decide, by decide, by decide,
   c9_marker_roundtrip ['h', 'i'] ['a', '1'] (by decide) (by decide) (by decide)
     (by intro c hc; cases hc; decide) (by intro c hc; cases hc; decide)⟩

/-- C10: `totalMessagesScanned` is a single process-wide cumulative
counter: over any run it equals its starting value plus the total number of
messages fetched across all cycles; every settlement resolved during one
cycle carries the counter's value for that cycle (shared by all jobs, not
a per-job count); and the counter never decreases. -/
theorem c10_total_scanned (cfg : SyntxConfig) :
    (∀ (s : SyntxState) (cycles : List (List Msg × Int)),
      (runCycles cfg s cycles).totalMessagesScanned
        = s.totalMessagesScanned + (cycles.map (fun cy => cy.1.length)).sum) ∧
    (∀ (s : SyntxState) (messages : List Msg) (now : Int),
      ∃ new, (pollOnce cfg s messages now).settled = s.settled ++ new ∧
        ∀ e ∈ new, ∀ mid meth k, e.2 = Outcome.matched mid meth k →
          k = s.totalMessagesScanned + messages.length) ∧
    (∀ (s : SyntxState) (messages : List Msg) (now : Int),
      s.totalMessagesScanned
        ≤ (pollOnce cfg s messages now).totalMessagesScanned) := by
  refine ⟨fun s cycles => runCycles_total cfg cycles s, ?_, ?_⟩
  · intro s messages now
    obtain ⟨ht, new, hs, hprop⟩ := pollOnce_goodExt cfg s messages now
    exact ⟨new, hs, hprop⟩
  · intro s messages now
    rw [pollOnce_total]
    exact Nat.le_add_right _ _

/-- C10 (witness): the counter equation and monotonicity at a concrete
two-cycle run. -/
theorem c10_total_scanned_witness :
    (runCycles ⟨3, 120000⟩ ⟨[], [], [], 0, []⟩
      [([⟨1, false, [], 0⟩, ⟨2, false, [], 0⟩], 5), ([⟨3, false, [], 0⟩], 6)]
      ).totalMessagesScanned
      = 0 + ([([⟨1, false, [], 0⟩, ⟨2, false, [], 0⟩], 5),
              ([(⟨3, false, [], 0⟩ : Msg)], 6)].map (fun cy => cy.1.length)).sum ∧
    (0 : Nat) ≤ (pollOnce ⟨3, 120000⟩ ⟨[], [], [], 0, []⟩
      [⟨1, false, [], 0⟩] 5).totalMessagesScanned :=
  ⟨(c10_total_scanned ⟨3, 120000⟩).1 ⟨[], [], [], 0, []⟩
    [([⟨1, false, [], 0⟩, ⟨2, false, [], 0⟩], 5), ([⟨3, false, [], 0⟩], 6)],
   (c10_total_scanned ⟨3, 120000⟩).2.2 ⟨[], [], [], 0, []⟩ [⟨1, false, [], 0⟩] 5⟩

end Syntx
